import Mathlib

/- Shallow embedding of the HTML post-processing logic of gutenberg/export.py:
   boilerplate stripping with the marker table, internal link rewriting,
   popularity star thresholds, and the EPUB patching loop. -/

namespace Gutenberg

/-! String helpers modelling Python substring tests. -/

/-- Does the pattern occur as a leading block of the text? -/
def headMatch : List Char → List Char → Bool
  | [], _ => true
  | _ :: _, [] => false
  | p :: ps, c :: cs => p == c && headMatch ps cs

/-- Python membership test on strings: pat in t. -/
def hasSub (pat : List Char) : List Char → Bool
  | [] => pat.isEmpty
  | c :: cs => headMatch pat (c :: cs) || hasSub pat cs

/-- Substring test on Lean strings. -/
def strHasSub (pat t : String) : Bool := hasSub pat.toList t.toList

/-! Document model: the body of a parsed HTML document is an ordered list of
    direct children, each either a bare text node (bs4 NavigableString) or an
    element node carrying its full text content. -/

inductive Child where
  | text (s : String)
  | elem (s : String)
deriving DecidableEq

/-- Full text of one child, as bs4 child.text (or the string itself). -/
def childText : Child → String
  | Child.text s => s
  | Child.elem s => s

/-- Is this child a bs4 NavigableString? -/
def isNavString : Child → Bool
  | Child.text _ => true
  | Child.elem _ => false

/-- body.text: concatenation of all text in document order. -/
def bodyText (cs : List Child) : String :=
  String.join (cs.map childText)

/-- Number of non-text direct children of the body (lines 275-277 of
    export.py: sum of 1 for each child that is not a NavigableString). -/
def countNonText (cs : List Child) : Nat :=
  (cs.filter (fun c => !isNavString c)).length

/-! The marker table (export.py lines 233-271), in source order. -/

def patterns : List (String × String) :=
  [("*** START OF THE PROJECT GUTENBERG EBOOK",
    "*** END OF THE PROJECT GUTENBERG EBOOK"),
   ("***START OF THE PROJECT GUTENBERG EBOOK",
    "***END OF THE PROJECT GUTENBERG EBOOK"),
   ("<><><><><><><><><><><><><><><><><><><><><><><><><><><><><><><><><><>",
    "<><><><><><><><><><><><><><><><><><><><><><><><><><><><><><><><><><>"),
   ("*** START OF THIS PROJECT GUTENBERG EBOOK",
    "*** START: FULL LICENSE ***"),
   ("*END THE SMALL PRINT! FOR PUBLIC DOMAIN ETEXT",
    "——————————————————————————-"),
   ("*** START OF THIS PROJECT GUTENBERG EBOOK",
    "*** END OF THIS PROJECT GUTENBERG EBOOK"),
   ("***START OF THE PROJECT GUTENBERG",
    "***END OF THE PROJECT GUTENBERG EBOOK"),
   ("COPYRIGHT PROTECTED ETEXTS*END*",
    "=============================" ++ "=============================="),
   ("Nous remercions la Bibliothèque Nationale de France qui a mis à",
    "The Project Gutenberg Etext of"),
   ("Nous remercions la Bibliothèque Nationale de France qui a mis à",
    "End of The Project Gutenberg EBook"),
   ("====================================" ++ "=====================================",
    "——————————————————————————-"),
   ("Project Gutenberg Etext", "End of Project Gutenberg Etext"),
   ("Text encoding is iso-8859-1", "Fin de Project Gutenberg Etext"),
   ("—————————————————-", "Encode an ISO 8859/1 Etext into LaTeX or HTML")]

/-! The removal loops. Each iteration body returns (delete this child,
    new value of the removing flag); a text child is skipped unchanged.
    The loop itself reproduces the Python list-iterator semantics over the
    live bs4 contents list: decomposing the current child removes it from
    the list being iterated, so the element that held the next index is
    skipped. -/

/-- Both markers present (export.py lines 289-301). -/
def bothStep (s e : String) (remove : Bool) : Child → Bool × Bool
  | Child.text _ => (false, remove)
  | Child.elem t =>
    if strHasSub s t then (true, false)
    else
      if strHasSub e t then (true, true)
      else (remove, remove)

/-- Only the start marker present (export.py lines 303-314). -/
def startStep (s : String) (remove : Bool) : Child → Bool × Bool
  | Child.text _ => (false, remove)
  | Child.elem t =>
    if strHasSub s t then (true, false) else (remove, remove)

/-- Only the end marker present (export.py lines 315-325). -/
def endStep (e : String) (remove : Bool) : Child → Bool × Bool
  | Child.text _ => (false, remove)
  | Child.elem t =>
    if strHasSub e t then (true, true) else (remove, remove)

/-- Python for-loop over the live contents list: the iterator keeps a plain
    index; deleting the current element shifts the list so the following
    element is never visited. The first argument is fuel bounding the number
    of iterations: every iteration strictly decreases contents.length - i,
    so a run started with fuel equal to that measure never exhausts it. -/
def iterLoopF (step : Bool → Child → Bool × Bool) :
    Nat → List Child → Nat → Bool → List Child
  | 0, contents, _, _ => contents
  | fuel + 1, contents, i, remove =>
    if h : i < contents.length then
      if (step remove (contents.get ⟨i, h⟩)).1 then
        iterLoopF step fuel (contents.eraseIdx i) (i + 1)
          (step remove (contents.get ⟨i, h⟩)).2
      else
        iterLoopF step fuel contents (i + 1)
          (step remove (contents.get ⟨i, h⟩)).2
    else contents

/-- The removal loop over the direct children of the body. -/
def iterLoop (step : Bool → Child → Bool × Bool) (contents : List Child)
    (remove : Bool) : List Child :=
  iterLoopF step contents.length contents 0 remove

/-- One marker pair applied to the body (the three removal modes,
    export.py lines 289-325). -/
def applyPattern (s e : String) (cs : List Child) : List Child :=
  if strHasSub s (bodyText cs) && strHasSub e (bodyText cs) then
    iterLoop (bothStep s e) cs true
  else
    if strHasSub s (bodyText cs) then
      iterLoop (startStep s) cs true
    else
      if strHasSub e (bodyText cs) then
        iterLoop (endStep e) cs false
      else cs

/-- Scan of the marker table (export.py lines 285-325): skip a pair when
    neither marker occurs in body.text, otherwise apply it and break. -/
def applyFirstPattern : List (String × String) → List Child → List Child
  | [], cs => cs
  | (s, e) :: rest, cs =>
    if strHasSub s (bodyText cs) || strHasSub e (bodyText cs) then
      applyPattern s e cs
    else
      applyFirstPattern rest cs

/-- The boilerplate stripper (export.py lines 273-325): a body made of a
    single non-text child is treated as already clean and left untouched,
    otherwise the marker table is scanned. -/
def stripBoilerplate (cs : List Child) : List Child :=
  if countNonText cs = 1 then cs else applyFirstPattern patterns cs

/-! Popularity ranker (export.py lines 131-148). The downloads column of
    popbooks, already ordered by downloads descending, drives the loop.
    The float comparison ibook > float(NB - stars + 1) / NB * count is
    modelled exactly over the naturals as NB * ibook > (NB - stars + 1) * count;
    the claims proved below do not depend on where the thresholds fall. -/

def NB_POPULARITY_STARS : Nat := 5

/-- One iteration of the threshold loop: state is (stars_limits, stars,
    nb_downloads), ibook the loop index, d the current downloads value. -/
def popStep (count : Nat) (st : List Nat × Nat × Nat) (ibook d : Nat) :
    List Nat × Nat × Nat :=
  match st with
  | (limits, stars, nb) =>
    if NB_POPULARITY_STARS * ibook > (NB_POPULARITY_STARS - stars + 1) * count
        ∧ d < nb then
      (limits.set (stars - 1) nb, stars - 1, d)
    else
      (limits, stars, d)

def popLoopAux (count : Nat) : Nat → List Nat → (List Nat × Nat × Nat) →
    List Nat × Nat × Nat
  | _, [], st => st
  | i, d :: rest, st => popLoopAux count (i + 1) rest (popStep count st i d)

/-- stars_limits after the loop, for the descending downloads column dl. -/
def stars_limits (dl : List Nat) : List Nat :=
  match dl with
  | [] => List.replicate NB_POPULARITY_STARS 0
  | d0 :: _ =>
    (popLoopAux dl.length 0 dl
      (List.replicate NB_POPULARITY_STARS 0, NB_POPULARITY_STARS, d0)).1

/-- book.popularity: the number of thresholds the downloads count meets or
    exceeds (export.py lines 146-148). -/
def popularity (limits : List Nat) (d : Nat) : Nat :=
  (limits.map (fun l => if l ≤ d then 1 else 0)).sum

/-! Link rewriter (export.py lines 203-220): replacablement_link. -/

/-- Decimal digits of the book id, as used by the format string. -/
def idChars (bookId : Nat) : List Char := (toString bookId).toList

/-- Python str.strip of surrounding whitespace. -/
def pyStrip (l : List Char) : List Char :=
  ((l.dropWhile Char.isWhitespace).reverse.dropWhile Char.isWhitespace).reverse

/-- url.rsplit with separator the hash character and maxsplit 1: split at the
    last hash; the second component is none when no hash occurs (the Python
    ValueError branch). -/
def rsplitHash : List Char → List Char × Option (List Char)
  | [] => ([], none)
  | c :: rest =>
    match rsplitHash rest with
    | (p, some a) => (c :: p, some a)
    | (_, none) => if c = '#' then ([], some rest) else (c :: rest, none)

/-- replacablement_link: none means the caller leaves the href unchanged. -/
def replacablement_link (bookId : Nat) (url : List Char) : Option (List Char) :=
  match rsplitHash url with
  | (urlp, anchor) =>
    if '/' ∈ urlp then none
    else
      let nurl := if (pyStrip urlp).length ≠ 0 then idChars bookId ++ '_' :: urlp
                  else []
      match anchor with
      | some a => some (nurl ++ '#' :: a)
      | none => some nurl

/-! NCX patching (export.py lines 465-480). The navMap is modelled as the
    ordered list of navPoint label texts; a decomposed navPoint is replaced
    by none. The loop walks the findAll snapshot by index. In bs4,
    decompose first extracts the node, which clears its sibling links, and
    then empties its dict, after which attribute lookup of next_sibling
    falls through to Tag find over the emptied contents and yields None; so
    the sibling iteration of an already decomposed node visits nothing. -/

def licenseMarker : String := "*** START: FULL LICENSE ***"

/-- Text of the label at index i; a decomposed navPoint has empty text. -/
def textAt (l : List (Option String)) (i : Nat) : String :=
  match l.get? i with
  | some (some t) => t
  | _ => ""

/-- Decompose the navPoint at index i. -/
def decomposeAt (l : List (Option String)) (i : Nat) : List (Option String) :=
  l.set i none

/-- Indices yielded by next_siblings of the node at index i: all following
    indices for a live node, nothing for a decomposed node (its sibling
    links were cleared by extract before the sibling loop runs). -/
def nextSiblingIdxs (l : List (Option String)) (i : Nat) : List Nat :=
  match l.get? i with
  | some (some _) => List.range' (i + 1) (l.length - (i + 1))
  | _ => []

/-- The loop over the findAll text-tag snapshot: on a match, decompose the
    containing navPoint, then decompose each of its next siblings. The
    first numeric argument is fuel bounding the iterations; a run started
    with fuel n never exhausts it. -/
def ncxLoopF (marker : String) (n : Nat) :
    Nat → Nat → List (Option String) → List (Option String)
  | 0, _, l => l
  | fuel + 1, i, l =>
    if i < n then
      if strHasSub marker (textAt l i) then
        ncxLoopF marker n fuel (i + 1)
          ((nextSiblingIdxs (decomposeAt l i) i).foldl decomposeAt
            (decomposeAt l i))
      else
        ncxLoopF marker n fuel (i + 1) l
    else l

/-- The navPoint labels surviving the NCX patch. -/
def truncateNCX (marker : String) (labels : List String) : List String :=
  (ncxLoopF marker labels.length labels.length 0 (labels.map some)).filterMap id

/-! EPUB entry loop (export.py lines 444-480): per-entry processing over
    zipped_files, with the Python list-iterator semantics: the loop keeps a
    plain index into the live list, and zipped_files.remove shifts the list
    so the element after the removed one is never visited. -/

inductive EpubAction where
  | optImage
  | patchHtml
  | patchNcx
deriving DecidableEq

/-- Splits at the last dot: (stem, extension including the dot). -/
def splitLastDot : List Char → Option (List Char × List Char)
  | [] => none
  | c :: rest =>
    match splitLastDot rest with
    | some (p, e) => some (c :: p, e)
    | none => if c = '.' then some ([], c :: rest) else none

/-- path(fname).ext: the extension of the basename; leading dots of the
    basename do not start an extension. -/
def extOf (s : String) : String :=
  match
    splitLastDot
      (((s.toList.reverse.takeWhile (fun c => c ≠ '/')).reverse).dropWhile
        (fun c => c = '.')) with
  | some (_, e) => String.mk e
  | none => ""

def isImageExt (e : String) : Bool :=
  e == ".png" || e == ".jpeg" || e == ".jpg" || e == ".gif"

def isHtmlExt (e : String) : Bool :=
  e == ".htm" || e == ".html"

/-- fname.endswith of the cover name. -/
def endsWithCoverJpg (s : String) : Bool :=
  headMatch ("cover.jpg".toList.reverse) s.toList.reverse

/-- The entry is the special bad-cover case: it is dropped from
    zipped_files instead of being processed. -/
def removesEntry (isBad : String → Bool) (f : String) : Bool :=
  isImageExt (extOf f) && (endsWithCoverJpg f && isBad f)

/-- The processing applied to one visited entry (image optimization, HTML
    patching, NCX patching), as (entry name, action) records. -/
def entryActions (isBad : String → Bool) (f : String) :
    List (String × EpubAction) :=
  (if isImageExt (extOf f) && !(endsWithCoverJpg f && isBad f) then
      [(f, EpubAction.optImage)]
    else [])
  ++ (if isHtmlExt (extOf f) then [(f, EpubAction.patchHtml)] else [])
  ++ (if extOf f == ".ncx" then [(f, EpubAction.patchNcx)] else [])

/-- list.remove: drop the first occurrence of the value. -/
def removeFirst {α : Type} [DecidableEq α] : List α → α → List α
  | [], _ => []
  | y :: ys, x => if y = x then ys else y :: removeFirst ys x

theorem removeFirst_length_le {α : Type} [DecidableEq α] :
    ∀ (l : List α) (x : α), (removeFirst l x).length ≤ l.length
  | [], _ => Nat.le_refl 0
  | y :: ys, x => by
    by_cases h : y = x
    · simp [removeFirst, h, Nat.le_succ]
    · simpa [removeFirst, h] using Nat.succ_le_succ (removeFirst_length_le ys x)

/-- The for-loop over zipped_files: index-based iteration over the live
    list, with fuel bounding the iterations (every iteration strictly
    decreases files.length - i, so a run started with that much fuel never
    exhausts it); returns (performed actions, final zipped_files,
    remove_cover). -/
def epubLoopF (isBad : String → Bool) :
    Nat → List String → Nat → List (String × EpubAction) → Bool →
    List (String × EpubAction) × List String × Bool
  | 0, files, _, acc, rc => (acc, files, rc)
  | fuel + 1, files, i, acc, rc =>
    if h : i < files.length then
      if removesEntry isBad (files.get ⟨i, h⟩) then
        epubLoopF isBad fuel (removeFirst files (files.get ⟨i, h⟩)) (i + 1)
          (acc ++ entryActions isBad (files.get ⟨i, h⟩)) true
      else
        epubLoopF isBad fuel files (i + 1)
          (acc ++ entryActions isBad (files.get ⟨i, h⟩)) rc
    else (acc, files, rc)

/-- The whole per-entry loop of optimize_epub over the extracted entries. -/
def epubLoop (isBad : String → Bool) (files : List String) :
    List (String × EpubAction) × List String × Bool :=
  epubLoopF isBad files.length files 0 [] false

/-! Control-flow model of optimize_epub resource handling (export.py lines
    435-508): the body is extraction, the per-entry loop, the cover-removal
    block and the zip repacking, in that order, each step able to raise;
    path(tmpd).rmtree_p() is the last statement of the function and there
    is no try/finally around the body, so an exception raised by any step
    propagates to the caller before the removal statement runs. -/

def seqSteps : List (Except String Unit) → Except String Unit
  | [] => Except.ok ()
  | s :: rest =>
    match s with
    | Except.ok _ => seqSteps rest
    | Except.error e => Except.error e

/-- Runs optimize_epub: returns (outcome, whether tmpd was removed). -/
def optimize_epub_run (extractStep : Except String Unit)
    (entrySteps : List (Except String Unit))
    (coverStep zipStep : Except String Unit) :
    Except String Unit × Bool :=
  match seqSteps (extractStep :: (entrySteps ++ [coverStep, zipStep])) with
  | Except.ok _ => (Except.ok (), true)
  | Except.error e => (Except.error e, false)

/-! Article export fallback (export.py lines 378-387): the HTML
    post-processing runs under a bare except that falls back to the
    original HTML, which is then written. -/

/-- Content written for the main article page, given the original HTML and
    the outcome of update_html_for_static on it. -/
def export_book_article (html : String)
    (run_update : String → Except String String) : String :=
  match run_update html with
  | Except.ok h => h
  | Except.error _ => html

/-! Theorems. -/

/-- C1: evaluation at a failing input. The body has four element children:
    one containing the start marker of the first table pair, one plain
    child, one containing the end marker, and one trailing child. The
    claim demands that only the plain middle child survives; the code also
    keeps the trailing child, because decomposing the current child shifts
    the live contents list under the Python list iterator, so the child
    following each decomposed child is skipped and the trailing child is
    never visited while the removing flag is set. -/
theorem stripBoilerplate_iterator_skip :
    stripBoilerplate
      [Child.elem "*** START OF THE PROJECT GUTENBERG EBOOK SAMPLE",
       Child.elem "kept middle",
       Child.elem "*** END OF THE PROJECT GUTENBERG EBOOK SAMPLE",
       Child.elem "trailing boilerplate"]
    = [Child.elem "kept middle", Child.elem "trailing boilerplate"] := by
  decide

/-- C3: evaluation at a failing input. The NCX has two navPoints and the
    first label contains the full-license marker. The claim demands that
    the matching navPoint and all its following sibling navPoints are
    removed; the code removes only the matching navPoint: decompose clears
    the sibling links of the node before the sibling loop reads them, so
    that loop iterates zero times and the second navPoint survives. -/
theorem truncateNCX_keeps_following_navpoints :
    truncateNCX licenseMarker
      ["Begin *** START: FULL LICENSE *** text", "Chapter 2"]
    = ["Chapter 2"] := by
  decide

/-- C5: a body consisting of exactly one non-text child is returned
    unmodified by the stripper; the marker scan is skipped entirely. -/
theorem stripBoilerplate_single_child (cs : List Child)
    (h : countNonText cs = 1) : stripBoilerplate cs = cs := by
  simp [stripBoilerplate, h]

/-- Witness for C5 at a concrete single-element body. -/
theorem stripBoilerplate_single_child_w :
    countNonText
        [Child.text "intro", Child.elem "the whole book", Child.text "end"]
      = 1 ∧
    stripBoilerplate
        [Child.text "intro", Child.elem "the whole book", Child.text "end"]
      = [Child.text "intro", Child.elem "the whole book", Child.text "end"] :=
  ⟨by decide, stripBoilerplate_single_child _ (by decide)⟩

/-- C6: first match wins. If no pair before (s, e) in the table has a
    marker occurring in body.text and (s, e) has one, then the scan applies
    exactly the removal mode of (s, e), whatever pairs follow it. -/
theorem applyFirstPattern_first_match (ps1 : List (String × String))
    (s e : String) (ps2 : List (String × String)) (cs : List Child)
    (h1 : ∀ p ∈ ps1,
      (strHasSub p.1 (bodyText cs) || strHasSub p.2 (bodyText cs)) = false)
    (h2 : (strHasSub s (bodyText cs) || strHasSub e (bodyText cs)) = true) :
    applyFirstPattern (ps1 ++ (s, e) :: ps2) cs = applyPattern s e cs := by
  induction ps1 with
  | nil => simp [applyFirstPattern, h2]
  | cons p ps ih =>
    obtain ⟨a, b⟩ := p
    have hp := h1 (a, b) (List.mem_cons_self _ _)
    simp only [List.cons_append, applyFirstPattern]
    simp only at hp
    simp only [hp, Bool.false_eq_true, if_false]
    exact ih (fun q hq => h1 q (List.mem_cons_of_mem _ hq))

/-- Witness for C6: the second table pair is the first one that matches,
    and the result ignores the pairs after it. -/
theorem applyFirstPattern_first_match_w :
    applyFirstPattern [("aa", "bb"), ("cc", "dd"), ("xx", "yy")]
        [Child.elem "cc appears here", Child.elem "zz"]
      = applyPattern "cc" "dd" [Child.elem "cc appears here", Child.elem "zz"] :=
  applyFirstPattern_first_match [("aa", "bb")] "cc" "dd" [("xx", "yy")]
    [Child.elem "cc appears here", Child.elem "zz"] (by decide) (by decide)

/-- C7 counterexample: a run of optimize_epub in which one entry step
    raises does not remove the temporary extraction directory, contrary to
    the claim that removal happens on the failure path as well. -/
theorem optimize_epub_no_cleanup_on_error :
    (optimize_epub_run (Except.ok ()) [Except.error "entry step raised"]
        (Except.ok ()) (Except.ok ())).2 = false := by
  decide

/-- C7 amended: the temporary extraction directory is removed precisely
    when every step of the body runs without raising; an exception in any
    step propagates to the caller before the removal statement runs. -/
theorem optimize_epub_cleanup_iff (extractStep : Except String Unit)
    (entrySteps : List (Except String Unit))
    (coverStep zipStep : Except String Unit) :
    (optimize_epub_run extractStep entrySteps coverStep zipStep).2 = true ↔
      seqSteps (extractStep :: (entrySteps ++ [coverStep, zipStep]))
        = Except.ok () := by
  unfold optimize_epub_run
  cases hs : seqSteps (extractStep :: (entrySteps ++ [coverStep, zipStep])) with
  | ok u => cases u; simp
  | error e => simp

/-- C8: when the HTML post-processing of the main article page raises, the
    unmodified original HTML is what gets written. -/
theorem export_book_article_fallback (html : String)
    (upd : String → Except String String) (e : String)
    (h : upd html = Except.error e) :
    export_book_article html upd = html := by
  unfold export_book_article
  rw [h]

/-- Witness for C8 with a concretely failing update. -/
theorem export_book_article_fallback_w :
    export_book_article "original html"
        (fun _ => Except.error "parse anomaly") = "original html" :=
  export_book_article_fallback "original html"
    (fun _ => Except.error "parse anomaly") "parse anomaly" rfl

/-- The star count is monotone in the downloads value, for any limits. -/
theorem popularity_mono (L : List Nat) (d d2 : Nat) (h : d2 ≤ d) :
    popularity L d2 ≤ popularity L d := by
  induction L with
  | nil => exact Nat.le_refl _
  | cons l rest ih =>
    simp only [popularity, List.map_cons, List.sum_cons] at ih ⊢
    have hind : (if l ≤ d2 then 1 else 0) ≤ (if l ≤ d then 1 else 0) := by
      by_cases hld : l ≤ d2
      · rw [if_pos hld, if_pos (Nat.le_trans hld h)]
      · rw [if_neg hld]
        exact Nat.zero_le _
    exact Nat.add_le_add hind ih

/-- C4: for a downloads column sorted non-increasingly, the derived star
    ratings are non-increasing along the input order, and books with equal
    downloads always receive equal ratings. -/
theorem popularity_nonincreasing (dl : List Nat)
    (hs : List.Chain' (fun a b => b ≤ a) dl) :
    List.Chain' (fun a b => b ≤ a)
      (dl.map (popularity (stars_limits dl))) ∧
    ∀ a ∈ dl, ∀ b ∈ dl, a = b →
      popularity (stars_limits dl) a = popularity (stars_limits dl) b := by
  constructor
  · rw [List.chain'_map]
    exact List.Chain'.imp
      (fun a b hba => popularity_mono (stars_limits dl) a b hba) hs
  · intro a _ b _ hab
    rw [hab]

/-- Witness for C4 at the download column from the specification. -/
theorem popularity_nonincreasing_w :
    List.Chain' (fun a b => b ≤ a) ([100, 100, 90, 80, 80, 80, 10] : List Nat) ∧
    (List.Chain' (fun a b => b ≤ a)
        (([100, 100, 90, 80, 80, 80, 10] : List Nat).map
          (popularity (stars_limits [100, 100, 90, 80, 80, 80, 10]))) ∧
      ∀ a ∈ ([100, 100, 90, 80, 80, 80, 10] : List Nat),
        ∀ b ∈ ([100, 100, 90, 80, 80, 80, 10] : List Nat), a = b →
          popularity (stars_limits [100, 100, 90, 80, 80, 80, 10]) a
            = popularity (stars_limits [100, 100, 90, 80, 80, 80, 10]) b) :=
  ⟨by norm_num [List.chain'_cons, List.chain'_singleton],
    popularity_nonincreasing _
      (by norm_num [List.chain'_cons, List.chain'_singleton])⟩

/-- When every downloads value equals d, the loop never updates the state:
    the second conjunct of its condition compares d with d and fails. -/
theorem popLoopAux_const (count d : Nat) (limits : List Nat) (stars : Nat) :
    ∀ (l : List Nat) (i : Nat), (∀ x ∈ l, x = d) →
      popLoopAux count i l (limits, stars, d) = (limits, stars, d) := by
  intro l
  induction l with
  | nil =>
    intro i _
    rfl
  | cons x rest ih =>
    intro i h
    have hx : x = d := h x (List.mem_cons_self _ _)
    subst hx
    simp only [popLoopAux, popStep]
    rw [if_neg]
    · exact ih (i + 1) (fun y hy => h y (List.mem_cons_of_mem _ hy))
    · intro hcon
      exact absurd hcon.2 (Nat.lt_irrefl x)

/-- C9: if every book of a non-empty collection has the same downloads
    count, no threshold is recorded (all five stay 0) and every book gets
    the top rating of 5 stars. -/
theorem stars_limits_all_equal (d : Nat) (dl : List Nat) (hne : dl ≠ [])
    (hall : ∀ x ∈ dl, x = d) :
    stars_limits dl = [0, 0, 0, 0, 0] ∧
    ∀ x ∈ dl, popularity (stars_limits dl) x = 5 := by
  obtain ⟨d0, rest, rfl⟩ : ∃ d0 rest, dl = d0 :: rest := by
    cases dl with
    | nil => exact absurd rfl hne
    | cons d0 rest => exact ⟨d0, rest, rfl⟩
  have hd0 : d0 = d := hall d0 (List.mem_cons_self _ _)
  have hlim : stars_limits (d0 :: rest) = [0, 0, 0, 0, 0] := by
    subst hd0
    have h1 : stars_limits (d0 :: rest)
        = (popLoopAux (d0 :: rest).length 0 (d0 :: rest)
            (List.replicate NB_POPULARITY_STARS 0,
              NB_POPULARITY_STARS, d0)).1 := rfl
    rw [h1, popLoopAux_const _ d0 _ _ _ _ hall]
    rfl
  refine ⟨hlim, ?_⟩
  intro x _
  rw [hlim]
  simp [popularity, Nat.zero_le]

/-- Witness for C9 on a constant collection. -/
theorem stars_limits_all_equal_w :
    ([7, 7, 7] : List Nat) ≠ [] ∧
    (stars_limits [7, 7, 7] = [0, 0, 0, 0, 0] ∧
      ∀ x ∈ ([7, 7, 7] : List Nat), popularity (stars_limits [7, 7, 7]) x = 5) :=
  ⟨by decide, stars_limits_all_equal 7 [7, 7, 7] (by decide) (by decide)⟩

/-! C2: link rewriting lemmas. -/

/-- rsplit on a string without the separator leaves it whole. -/
theorem rsplitHash_no_hash (l : List Char) (h : '#' ∉ l) :
    rsplitHash l = (l, none) := by
  induction l with
  | nil => rfl
  | cons c rest ih =>
    have hc : c ≠ '#' := fun hc => h (by rw [hc]; exact List.mem_cons_self _ _)
    have hr : '#' ∉ rest := fun hm => h (List.mem_cons_of_mem _ hm)
    simp only [rsplitHash, ih hr, if_neg hc]

/-- rsplit splits at the last separator. -/
theorem rsplitHash_append (p a : List Char) (ha : '#' ∉ a) :
    rsplitHash (p ++ '#' :: a) = (p, some a) := by
  induction p with
  | nil =>
    rw [List.nil_append]
    unfold rsplitHash
    rw [rsplitHash_no_hash a ha]
    simp
  | cons c cs ih =>
    rw [List.cons_append]
    unfold rsplitHash
    rw [ih]

/-- C2 counterexample: the claim demands that the pure-anchor href splits
    to the book-prefixed form, but the code returns the href unchanged:
    the empty path strips to length zero, so no prefix is attached. -/
theorem replacablement_link_pure_anchor_cex :
    replacablement_link 42 ("#sec2".toList) = some ("#sec2".toList) ∧
    ("#sec2".toList : List Char) ≠ ("42_#sec2".toList) := by
  decide

/-- Evaluation of the rewriter through the result of the rsplit. -/
theorem replacablement_link_eval (bookId : Nat) (url urlp : List Char)
    (anchor : Option (List Char)) (h : rsplitHash url = (urlp, anchor)) :
    replacablement_link bookId url =
      if '/' ∈ urlp then none
      else
        match anchor with
        | some a =>
          some ((if (pyStrip urlp).length ≠ 0 then
              idChars bookId ++ '_' :: urlp else []) ++ '#' :: a)
        | none =>
          some (if (pyStrip urlp).length ≠ 0 then
              idChars bookId ++ '_' :: urlp else []) := by
  unfold replacablement_link
  rw [h]

/-- C2 amended: a href whose path part has no slash and contains some
    non-whitespace character is rewritten to the id-prefixed form, with or
    without an anchor; a pure-anchor href is returned unchanged; a href
    whose path part contains a slash is not rewritten at all. -/
theorem replacablement_link_spec (bookId : Nat) (p a : List Char)
    (hp : '#' ∉ p) (ha : '#' ∉ a) :
    ('/' ∉ p → (pyStrip p).length ≠ 0 →
      replacablement_link bookId (p ++ '#' :: a)
          = some (idChars bookId ++ '_' :: (p ++ '#' :: a)) ∧
        replacablement_link bookId p = some (idChars bookId ++ '_' :: p)) ∧
    replacablement_link bookId ('#' :: a) = some ('#' :: a) ∧
    ('/' ∈ p →
      replacablement_link bookId (p ++ '#' :: a) = none ∧
        replacablement_link bookId p = none) := by
  have hanch : rsplitHash ('#' :: a) = ([], some a) := by
    have h0 := rsplitHash_append [] a ha
    rwa [List.nil_append] at h0
  refine ⟨?_, ?_, ?_⟩
  · intro hsl hws
    constructor
    · rw [replacablement_link_eval bookId _ p (some a)
        (rsplitHash_append p a ha)]
      rw [if_neg hsl]
      simp only [if_pos hws, List.append_assoc, List.cons_append]
    · rw [replacablement_link_eval bookId _ p none (rsplitHash_no_hash p hp)]
      rw [if_neg hsl]
      simp only [if_pos hws]
  · rw [replacablement_link_eval bookId _ [] (some a) hanch]
    rw [if_neg (List.not_mem_nil '/')]
    simp [pyStrip]
  · intro hsl
    constructor
    · rw [replacablement_link_eval bookId _ p (some a)
        (rsplitHash_append p a ha)]
      rw [if_pos hsl]
    · rw [replacablement_link_eval bookId _ p none (rsplitHash_no_hash p hp)]
      rw [if_pos hsl]

/-- Witness for C2 amended at book 42 with path chap1.html and anchor sec2. -/
theorem replacablement_link_spec_w :
    ('#' ∉ ("chap1.html".toList : List Char)) ∧
    ('#' ∉ ("sec2".toList : List Char)) ∧
    (('/' ∉ ("chap1.html".toList : List Char) →
        (pyStrip ("chap1.html".toList)).length ≠ 0 →
      replacablement_link 42 ("chap1.html".toList ++ '#' :: "sec2".toList)
          = some (idChars 42 ++ '_' :: ("chap1.html".toList ++ '#' :: "sec2".toList)) ∧
        replacablement_link 42 ("chap1.html".toList)
          = some (idChars 42 ++ '_' :: "chap1.html".toList)) ∧
      replacablement_link 42 ('#' :: "sec2".toList) = some ('#' :: "sec2".toList) ∧
      ('/' ∈ ("chap1.html".toList : List Char) →
        replacablement_link 42 ("chap1.html".toList ++ '#' :: "sec2".toList) = none ∧
          replacablement_link 42 ("chap1.html".toList) = none)) :=
  ⟨by decide, by decide,
    replacablement_link_spec 42 ("chap1.html".toList) ("sec2".toList)
      (by decide) (by decide)⟩

/-! C10: helper lemmas about list indexing under removal. -/

theorem get_mem_drop {α : Type} : ∀ (l : List α) (i : Nat) (h : i < l.length),
    l.get ⟨i, h⟩ ∈ l.drop i
  | _ :: _, 0, _ => List.mem_cons_self _ _
  | _ :: l, i + 1, h => get_mem_drop l i (Nat.lt_of_succ_lt_succ h)

theorem drop_succ_subset {α : Type} : ∀ (l : List α) (i : Nat),
    l.drop (i + 1) ⊆ l.drop i
  | [], _ => by intro x hx; simp at hx
  | a :: _, 0 => by intro x hx; exact List.mem_cons_of_mem a hx
  | _ :: l, i + 1 => drop_succ_subset l i

theorem mem_removeFirst {α : Type} [DecidableEq α] {x v : α} :
    ∀ {l : List α}, x ∈ l → x ≠ v → x ∈ removeFirst l v := by
  intro l
  induction l with
  | nil => intro h _; exact absurd h (List.not_mem_nil x)
  | cons y ys ih =>
    intro hx hxv
    by_cases hy : y = v
    · simp only [removeFirst, if_pos hy]
      rcases List.mem_cons.1 hx with h1 | h1
      · exact absurd (h1.trans hy) hxv
      · exact h1
    · simp only [removeFirst, if_neg hy]
      rcases List.mem_cons.1 hx with h1 | h1
      · rw [h1]; exact List.mem_cons_self _ _
      · exact List.mem_cons_of_mem _ (ih h1 hxv)

theorem removeFirst_drop_subset {α : Type} [DecidableEq α] :
    ∀ (l : List α) (v : α) (k : Nat), (removeFirst l v).drop k ⊆ l.drop k := by
  intro l
  induction l with
  | nil => intro v k x hx; simp [removeFirst] at hx
  | cons y ys ih =>
    intro v k
    by_cases hy : y = v
    · simp only [removeFirst, if_pos hy]
      cases k with
      | zero => intro x hx; exact List.mem_cons_of_mem _ hx
      | succ k => exact drop_succ_subset ys k
    · simp only [removeFirst, if_neg hy]
      cases k with
      | zero =>
        intro x hx
        rcases List.mem_cons.1 hx with h1 | h1
        · rw [h1]; exact List.mem_cons_self _ _
        · exact List.mem_cons_of_mem _ (ih v 0 h1)
      | succ k => exact ih v k

theorem isImageExt_not_html (e : String) (h : isImageExt e = true) :
    isHtmlExt e = false ∧ (e == ".ncx") = false := by
  simp only [isImageExt, Bool.or_eq_true, beq_iff_eq] at h
  rcases h with ((rfl | rfl) | rfl) | rfl <;> exact ⟨by decide, by decide⟩

theorem entryActions_name (isBad : String → Bool) (f : String)
    (p : String × EpubAction) (hp : p ∈ entryActions isBad f) : p.1 = f := by
  unfold entryActions at hp
  rcases List.mem_append.1 hp with h1 | h1
  · rcases List.mem_append.1 h1 with h2 | h2
    · split at h2
      · rw [List.mem_singleton] at h2
        rw [h2]
      · exact absurd h2 (List.not_mem_nil p)
    · split at h2
      · rw [List.mem_singleton] at h2
        rw [h2]
      · exact absurd h2 (List.not_mem_nil p)
  · split at h1
    · rw [List.mem_singleton] at h1
      rw [h1]
    · exact absurd h1 (List.not_mem_nil p)

theorem entryActions_of_removes (isBad : String → Bool) (f : String)
    (h : removesEntry isBad f = true) : entryActions isBad f = [] := by
  simp only [removesEntry, Bool.and_eq_true] at h
  obtain ⟨himg, hcb⟩ := h
  obtain ⟨hnh, hnn⟩ := isImageExt_not_html (extOf f) himg
  simp [entryActions, himg, hcb, hnh, hnn]

/-- Every action the loop records from position i onward names an entry of
    the current list from position i onward. -/
theorem epubLoopF_actions_scope (isBad : String → Bool) :
    ∀ (fuel : Nat) (files : List String) (i : Nat)
      (acc : List (String × EpubAction)) (rc : Bool)
      (p : String × EpubAction),
      p ∈ (epubLoopF isBad fuel files i acc rc).1 →
      p ∈ acc ∨ p.1 ∈ files.drop i := by
  intro fuel
  induction fuel with
  | zero =>
    intro files i acc rc p hp
    exact Or.inl hp
  | succ fuel ih =>
    intro files i acc rc p hp
    by_cases hlt : i < files.length
    · simp only [epubLoopF] at hp
      rw [dif_pos hlt] at hp
      by_cases hrem : removesEntry isBad (files.get ⟨i, hlt⟩) = true
      · rw [if_pos hrem] at hp
        rcases ih _ _ _ _ p hp with h1 | h1
        · rcases List.mem_append.1 h1 with h2 | h2
          · exact Or.inl h2
          · right
            rw [entryActions_name isBad _ p h2]
            exact get_mem_drop files i hlt
        · right
          exact drop_succ_subset files i
            (removeFirst_drop_subset files _ (i + 1) h1)
      · rw [if_neg hrem] at hp
        rcases ih _ _ _ _ p hp with h1 | h1
        · rcases List.mem_append.1 h1 with h2 | h2
          · exact Or.inl h2
          · right
            rw [entryActions_name isBad _ p h2]
            exact get_mem_drop files i hlt
        · exact Or.inr (drop_succ_subset files i h1)
    · simp only [epubLoopF] at hp
      rw [dif_neg hlt] at hp
      exact Or.inl hp

/-- An entry whose occurrences all lie before position i survives in the
    final zipped_files list: only values sitting at or after the current
    index are ever passed to remove. -/
theorem epubLoopF_mem_preserved (isBad : String → Bool) :
    ∀ (fuel : Nat) (files : List String) (i : Nat)
      (acc : List (String × EpubAction)) (rc : Bool) (x : String),
      x ∈ files → x ∉ files.drop i →
      x ∈ (epubLoopF isBad fuel files i acc rc).2.1 := by
  intro fuel
  induction fuel with
  | zero =>
    intro files i acc rc x hx _
    exact hx
  | succ fuel ih =>
    intro files i acc rc x hx hxd
    by_cases hlt : i < files.length
    · have hcd : files.get ⟨i, hlt⟩ ∈ files.drop i := get_mem_drop files i hlt
      have hxc : x ≠ files.get ⟨i, hlt⟩ := by
        intro he
        rw [he] at hxd
        exact hxd hcd
      simp only [epubLoopF]
      rw [dif_pos hlt]
      by_cases hrem : removesEntry isBad (files.get ⟨i, hlt⟩) = true
      · rw [if_pos hrem]
        refine ih _ _ _ _ x (mem_removeFirst hx hxc) ?_
        intro hc
        exact hxd (drop_succ_subset files i
          (removeFirst_drop_subset files _ (i + 1) hc))
      · rw [if_neg hrem]
        refine ih _ _ _ _ x hx ?_
        intro hc
        exact hxd (drop_succ_subset files i hc)
    · simp only [epubLoopF]
      rw [dif_neg hlt]
      exact hx

theorem get_append_mid {α : Type} (front : List α) (x : α) (tl : List α) :
    ∀ (h : front.length < (front ++ x :: tl).length),
      (front ++ x :: tl).get ⟨front.length, h⟩ = x := by
  induction front with
  | nil => intro h; rfl
  | cons a front ih =>
    intro h
    have h2 : front.length < (front ++ x :: tl).length := by
      simp only [List.length_append, List.length_cons] at h ⊢
      omega
    exact ih h2

theorem drop_append_succ {α : Type} :
    ∀ (front : List α) (x : α) (l : List α),
      (front ++ x :: l).drop (front.length + 1) = l
  | [], _, _ => rfl
  | _ :: front, x, l => drop_append_succ front x l

theorem removeFirst_append_of_not_mem {α : Type} [DecidableEq α]
    (v : α) (tl : List α) :
    ∀ (front : List α), v ∉ front →
      removeFirst (front ++ v :: tl) v = front ++ tl := by
  intro front
  induction front with
  | nil => intro _; simp [removeFirst]
  | cons a front ih =>
    intro hv
    have ha : a ≠ v := fun he => hv (by rw [he]; exact List.mem_cons_self _ _)
    show (if a = v then front ++ v :: tl
        else a :: removeFirst (front ++ v :: tl) v) = (a :: front) ++ tl
    rw [if_neg ha, ih (fun hm => hv (List.mem_cons_of_mem _ hm))]
    rfl

theorem bind_entryActions_name (isBad : String → Bool) (pre : List String)
    (q : String × EpubAction) (hq : q ∈ pre.flatMap (entryActions isBad)) :
    q.1 ∈ pre := by
  rcases List.mem_flatMap.1 hq with ⟨f, hf, hqf⟩
  rw [entryActions_name isBad f q hqf]
  exact hf

/-- Walking a stretch of entries none of which triggers removal: the list
    is unchanged, the index advances over the stretch, and the per-entry
    actions of the stretch are recorded in order. -/
theorem epubLoopF_walk (isBad : String → Bool) (tl : List String) :
    ∀ (pre front : List String) (acc : List (String × EpubAction))
      (rc : Bool) (fuel : Nat),
      (∀ f ∈ pre, removesEntry isBad f = false) →
      epubLoopF isBad (pre.length + fuel) (front ++ pre ++ tl)
          front.length acc rc
        = epubLoopF isBad fuel (front ++ pre ++ tl) (front ++ pre).length
            (acc ++ pre.flatMap (entryActions isBad)) rc := by
  intro pre
  induction pre with
  | nil =>
    intro front acc rc fuel _
    simp
  | cons p ps ih =>
    intro front acc rc fuel hpre
    have hp : removesEntry isBad p = false := hpre p (List.mem_cons_self _ _)
    have hps : ∀ f ∈ ps, removesEntry isBad f = false :=
      fun f hf => hpre f (List.mem_cons_of_mem _ hf)
    have harr : (p :: ps).length + fuel = (ps.length + fuel) + 1 := by
      simp only [List.length_cons]
      omega
    rw [harr]
    have hassoc : front ++ (p :: ps) ++ tl = front ++ p :: (ps ++ tl) := by
      simp
    rw [hassoc]
    have hlt : front.length < (front ++ p :: (ps ++ tl)).length := by
      simp only [List.length_append, List.length_cons]
      omega
    simp only [epubLoopF]
    rw [dif_pos hlt]
    rw [get_append_mid front p (ps ++ tl) hlt]
    rw [if_neg (show ¬(removesEntry isBad p = true) by simp [hp])]
    have ih2 := ih (front ++ [p]) (acc ++ entryActions isBad p) rc fuel hps
    simp only [List.append_assoc, List.singleton_append, List.cons_append,
      List.length_append, List.length_cons, List.length_nil, List.flatMap_cons,
      List.nil_append, Nat.add_zero, Nat.zero_add] at ih2 ⊢
    exact ih2

/-- The iteration that meets the flagged cover at an arbitrary position
    (the cover value not occurring earlier in the list): the cover is
    removed from the live list, no action is recorded for it, and the
    iterator index moves past the slot now holding the next entry. -/
theorem epubLoopF_removes_cover_step (isBad : String → Bool)
    (front : List String) (cover : String) (tl : List String)
    (fuel : Nat) (acc : List (String × EpubAction)) (rc : Bool)
    (hrem : removesEntry isBad cover = true) (hcf : cover ∉ front) :
    epubLoopF isBad (fuel + 1) (front ++ cover :: tl) front.length acc rc
      = epubLoopF isBad fuel (front ++ tl) (front.length + 1) acc true := by
  have hlt : front.length < (front ++ cover :: tl).length := by
    simp only [List.length_append, List.length_cons]
    omega
  simp only [epubLoopF]
  rw [dif_pos hlt]
  rw [get_append_mid front cover tl hlt]
  rw [if_pos hrem]
  rw [removeFirst_append_of_not_mem cover tl front hcf]
  rw [entryActions_of_removes isBad cover hrem]
  rw [List.append_nil]

/-- C10: in any archive whose entry list contains a flagged bad cover (at
    any position, no entry before it triggering a removal of its own), the
    entry immediately after the cover in the original order is skipped by
    the processing loop: no optimization or patch action is recorded for
    it, yet it remains in the final zipped_files list used for repacking. -/
theorem epub_cover_skips_follower (isBad : String → Bool)
    (pre : List String) (cover follower : String) (rest : List String)
    (hpre : ∀ f ∈ pre, removesEntry isBad f = false)
    (hrem : removesEntry isBad cover = true)
    (hfp : follower ∉ pre) (hf1 : follower ∉ rest) :
    follower ∉
      ((epubLoop isBad (pre ++ cover :: follower :: rest)).1.map Prod.fst) ∧
    follower ∈ (epubLoop isBad (pre ++ cover :: follower :: rest)).2.1 := by
  have hlen : (pre ++ cover :: follower :: rest).length
      = pre.length + (rest.length + 2) := by
    simp only [List.length_append, List.length_cons]
  have hcf : cover ∉ pre := by
    intro hc
    rw [hpre cover hc] at hrem
    exact Bool.false_ne_true hrem
  have hstep :
      epubLoop isBad (pre ++ cover :: follower :: rest)
        = epubLoopF isBad (rest.length + 1) (pre ++ follower :: rest)
            (pre.length + 1) (pre.flatMap (entryActions isBad)) true := by
    unfold epubLoop
    rw [hlen]
    have hwalk := epubLoopF_walk isBad (cover :: follower :: rest) pre []
      [] false (rest.length + 2) hpre
    simp only [List.nil_append, List.length_nil] at hwalk
    rw [hwalk]
    exact epubLoopF_removes_cover_step isBad pre cover (follower :: rest)
      (rest.length + 1) (pre.flatMap (entryActions isBad)) false hrem hcf
  rw [hstep]
  constructor
  · intro hmem
    rcases List.mem_map.1 hmem with ⟨q, hq, hfst⟩
    rcases epubLoopF_actions_scope isBad (rest.length + 1)
        (pre ++ follower :: rest) (pre.length + 1)
        (pre.flatMap (entryActions isBad)) true q hq with h1 | h1
    · refine hfp ?_
      rw [← hfst]
      exact bind_entryActions_name isBad pre q h1
    · rw [hfst] at h1
      rw [drop_append_succ pre follower rest] at h1
      exact hf1 h1
  · refine epubLoopF_mem_preserved isBad (rest.length + 1)
      (pre ++ follower :: rest) (pre.length + 1)
      (pre.flatMap (entryActions isBad)) true follower ?_ ?_
    · exact List.mem_append.2 (Or.inr (List.mem_cons_self _ _))
    · rw [drop_append_succ pre follower rest]
      exact hf1

/-- Witness for C10 on a five-entry archive whose flagged cover sits in the
    middle, after the mimetype and manifest entries. -/
theorem epub_cover_skips_follower_w :
    (∀ f ∈ (["mimetype", "42/content.opf"] : List String),
        removesEntry (fun n => n == "42/cover.jpg") f = false) ∧
    removesEntry (fun n => n == "42/cover.jpg") "42/cover.jpg" = true ∧
    "42/chapter1.htm" ∉ (["mimetype", "42/content.opf"] : List String) ∧
    "42/chapter1.htm" ∉ (["42/toc.ncx"] : List String) ∧
    (("42/chapter1.htm" ∉
        ((epubLoop (fun n => n == "42/cover.jpg")
          (["mimetype", "42/content.opf"]
            ++ "42/cover.jpg" :: "42/chapter1.htm" :: ["42/toc.ncx"])).1.map
          Prod.fst)) ∧
      "42/chapter1.htm" ∈
        (epubLoop (fun n => n == "42/cover.jpg")
          (["mimetype", "42/content.opf"]
            ++ "42/cover.jpg" :: "42/chapter1.htm" :: ["42/toc.ncx"])).2.1) :=
  ⟨by decide, by decide, by decide, by decide,
    epub_cover_skips_follower (fun n => n == "42/cover.jpg")
      ["mimetype", "42/content.opf"] "42/cover.jpg" "42/chapter1.htm"
      ["42/toc.ncx"] (by decide) (by decide) (by decide) (by decide)⟩

end Gutenberg
